import Mathlib

/-!
Verification of the distributed command-execution engine in `dcli.py`.

Each definition below is a shallow embedding of the corresponding Python
function: file and terminal input is abstracted by its list of lines,
subprocess behaviour by the observed exit status and captured output, and
machine integers by `Int`/`Nat`.  The Python string primitives used by the
code (`str.strip`, `str.split(",")`, `str.startswith`, `in`) are modelled
structurally on the character list of a string so that every definition is
executable by the kernel.  Line numbers refer to `src/dcli.py`.
-/

namespace Dcli

/-- Python `str.strip()`: drop leading and trailing whitespace characters. -/
def pyStrip (s : String) : String :=
  ⟨((s.data.dropWhile Char.isWhitespace).reverse.dropWhile Char.isWhitespace).reverse⟩

/-- Python `str.startswith("#")`: the first character is `#`. -/
def pyStartsWithHash (s : String) : Bool :=
  match s.data with
  | [] => false
  | c :: _ => c == '#'

/-- Helper for `pySplitComma`: accumulate the current piece (reversed) and
cut at every comma. -/
def splitCommaAux : List Char → List Char → List (List Char)
  | [], cur => [cur.reverse]
  | c :: rest, cur =>
    if c == ',' then cur.reverse :: splitCommaAux rest []
    else splitCommaAux rest (c :: cur)

/-- Python `str.split(",")`: pieces between commas, empty pieces kept. -/
def pySplitComma (s : String) : List String :=
  (splitCommaAux s.data []).map fun cs => ⟨cs⟩

/-- Group-file parsing inside `buildCellList` (dcli.py lines 229-240): every
line of the host-list file is stripped; lines that are non-empty and do not
start with `#` are kept, in order. -/
def parseGroupFile (lines : List String) : List String :=
  (lines.map pyStrip).filter fun line =>
    (line.length != 0) && !(pyStartsWithHash line)

/-- Inline `-c` parsing inside `buildCellList` (lines 242-246): every entry
is split on commas and each piece stripped.  No blank filtering happens
here. -/
def parseInlineCells (cells : List String) : List String :=
  (cells.map fun cline => (pySplitComma cline).map pyStrip).flatten

/-- The duplicate-removal loop of `buildCellList` (lines 248-251): walk the
candidate list, appending a cell to the accumulator only when it is not
already present. -/
def uniqueCellsAux : List String → List String → List String
  | acc, [] => acc
  | acc, c :: rest => uniqueCellsAux (if c ∈ acc then acc else acc ++ [c]) rest

/-- The candidate list fed to the duplicate-removal loop: file entries first
(when a `-g` file was given), then inline entries (when `-c` was given). -/
def cellCandidates (cells : Option (List String)) (fileLines : Option (List String)) :
    List String :=
  (match fileLines with
   | some lines => parseGroupFile lines
   | none => []) ++
  (match cells with
   | some cs => parseInlineCells cs
   | none => [])

/-- `buildCellList` (dcli.py lines 218-252), with the group file abstracted
by its list of lines (`none` when no `-g` option was given) and `cells` the
raw `-c` option values (`none` when absent). -/
def buildCellList (cells : Option (List String)) (fileLines : Option (List String)) :
    List String :=
  uniqueCellsAux [] (cellCandidates cells fileLines)

/-- First-occurrence view of the duplicate-removal loop: keep an element
exactly when it has not been seen before.  Proved equal to `uniqueCellsAux`
in `uniqueCellsAux_eq`. -/
def firstOcc (seen : List String) : List String → List String
  | [] => []
  | c :: rest =>
    if c ∈ seen then firstOcc seen rest
    else c :: firstOcc (seen ++ [c]) rest

theorem uniqueCellsAux_eq (l : List String) (acc : List String) :
    uniqueCellsAux acc l = acc ++ firstOcc acc l := by
  induction l generalizing acc with
  | nil => simp [uniqueCellsAux, firstOcc]
  | cons c rest ih =>
    by_cases h : c ∈ acc
    · simp [uniqueCellsAux, firstOcc, h, ih]
    · simp [uniqueCellsAux, firstOcc, h, ih (acc ++ [c])]

theorem mem_firstOcc {x : String} (l : List String) (seen : List String) :
    x ∈ firstOcc seen l ↔ x ∈ l ∧ x ∉ seen := by
  induction l generalizing seen with
  | nil => simp [firstOcc]
  | cons c rest ih =>
    by_cases h : c ∈ seen
    · rw [firstOcc, if_pos h, ih]
      constructor
      · rintro ⟨hx, hxs⟩
        exact ⟨List.mem_cons_of_mem c hx, hxs⟩
      · rintro ⟨hx, hxs⟩
        rcases List.mem_cons.1 hx with rfl | hx'
        · exact absurd h hxs
        · exact ⟨hx', hxs⟩
    · rw [firstOcc, if_neg h]
      constructor
      · intro hm
        rcases List.mem_cons.1 hm with rfl | hm'
        · exact ⟨List.mem_cons_self x rest, h⟩
        · rcases (ih (seen ++ [c])).1 hm' with ⟨hx, hxs⟩
          exact ⟨List.mem_cons_of_mem c hx,
            fun hs => hxs (List.mem_append.2 (Or.inl hs))⟩
      · rintro ⟨hx, hxs⟩
        rcases List.mem_cons.1 hx with rfl | hx'
        · exact List.mem_cons_self x _
        · by_cases hxc : x = c
          · subst hxc
            exact List.mem_cons_self x _
          · refine List.mem_cons_of_mem c ((ih (seen ++ [c])).2 ⟨hx', fun hs => ?_⟩)
            rcases List.mem_append.1 hs with h1 | h2
            · exact hxs h1
            · exact hxc (by simpa using h2)

theorem nodup_firstOcc (l : List String) (seen : List String) :
    (firstOcc seen l).Nodup := by
  induction l generalizing seen with
  | nil => simp [firstOcc]
  | cons c rest ih =>
    by_cases h : c ∈ seen
    · simpa [firstOcc, if_pos h] using ih seen
    · simp only [firstOcc, if_neg h, List.nodup_cons]
      refine ⟨fun hc => ?_, ih (seen ++ [c])⟩
      rcases (mem_firstOcc rest (seen ++ [c])).1 hc with ⟨-, hns⟩
      exact hns (List.mem_append.2 (Or.inr (List.mem_singleton_self c)))

theorem firstOcc_sublist (l : List String) (seen : List String) :
    List.Sublist (firstOcc seen l) l := by
  induction l generalizing seen with
  | nil => simp [firstOcc]
  | cons c rest ih =>
    by_cases h : c ∈ seen
    · rw [firstOcc, if_pos h]
      exact (ih seen).cons c
    · rw [firstOcc, if_neg h]
      exact (ih (seen ++ [c])).cons₂ c

theorem firstOcc_indexOf_mono (l : List String) (seen : List String)
    (a b : String) (ha : a ∈ firstOcc seen l) (hb : b ∈ firstOcc seen l)
    (hab : l.indexOf a ≤ l.indexOf b) :
    (firstOcc seen l).indexOf a ≤ (firstOcc seen l).indexOf b := by
  induction l generalizing seen with
  | nil => simp [firstOcc] at ha
  | cons c rest ih =>
    by_cases h : c ∈ seen
    · rw [firstOcc, if_pos h] at ha hb ⊢
      have ha' := (mem_firstOcc rest seen).1 ha
      have hb' := (mem_firstOcc rest seen).1 hb
      have hac : c ≠ a := fun e => ha'.2 (e ▸ h)
      have hbc : c ≠ b := fun e => hb'.2 (e ▸ h)
      rw [List.indexOf_cons_ne rest hac, List.indexOf_cons_ne rest hbc] at hab
      exact ih seen ha hb (Nat.succ_le_succ_iff.1 hab)
    · rw [firstOcc, if_neg h] at ha hb ⊢
      by_cases hac : a = c
      · subst hac
        simp [List.indexOf_cons_self]
      · have hca : c ≠ a := fun e => hac e.symm
        have ha' : a ∈ firstOcc (seen ++ [c]) rest := by
          rcases List.mem_cons.1 ha with e | h'
          · exact absurd e hac
          · exact h'
        by_cases hbc : b = c
        · subst hbc
          rw [List.indexOf_cons_ne rest hca, List.indexOf_cons_self] at hab
          exact absurd hab (by omega)
        · have hcb : c ≠ b := fun e => hbc e.symm
          have hb' : b ∈ firstOcc (seen ++ [c]) rest := by
            rcases List.mem_cons.1 hb with e | h'
            · exact absurd e hbc
            · exact h'
          rw [List.indexOf_cons_ne rest hca, List.indexOf_cons_ne rest hcb] at hab
          rw [List.indexOf_cons_ne _ hca, List.indexOf_cons_ne _ hcb]
          exact Nat.succ_le_succ
            (ih (seen ++ [c]) ha' hb' (Nat.succ_le_succ_iff.1 hab))

theorem buildCellList_eq_firstOcc (cells fileLines : Option (List String)) :
    buildCellList cells fileLines = firstOcc [] (cellCandidates cells fileLines) := by
  rw [buildCellList, uniqueCellsAux_eq, List.nil_append]

/-- Claim C8: for every combination of inline host entries and host-list
file contents, the host list built by `buildCellList` contains no duplicate
entry, is a subsequence of the candidate list (file entries first, then
inline entries), contains exactly the candidate entries, and lists them in
first-occurrence order of the candidate list. -/
theorem buildCellList_nodup_firstOccurrence_order
    (cells fileLines : Option (List String)) :
    (buildCellList cells fileLines).Nodup ∧
    List.Sublist (buildCellList cells fileLines) (cellCandidates cells fileLines) ∧
    (∀ x, x ∈ buildCellList cells fileLines ↔ x ∈ cellCandidates cells fileLines) ∧
    (∀ a b, a ∈ cellCandidates cells fileLines → b ∈ cellCandidates cells fileLines →
      (cellCandidates cells fileLines).indexOf a ≤ (cellCandidates cells fileLines).indexOf b →
      (buildCellList cells fileLines).indexOf a ≤ (buildCellList cells fileLines).indexOf b) := by
  rw [buildCellList_eq_firstOcc]
  refine ⟨nodup_firstOcc _ _, firstOcc_sublist _ _, ?_, ?_⟩
  · intro x
    rw [mem_firstOcc]
    simp
  · intro a b hca hcb hab
    exact firstOcc_indexOf_mono _ _ a b
      ((mem_firstOcc _ _).2 ⟨hca, by simp⟩)
      ((mem_firstOcc _ _).2 ⟨hcb, by simp⟩) hab

theorem buildCellList_nodup_firstOccurrence_order_witness :
    ("h1" ∈ cellCandidates (some ["h2,h1"]) (some ["h1", "# note", "", "h3"])) ∧
    (buildCellList (some ["h2,h1"]) (some ["h1", "# note", "", "h3"])).indexOf "h3" ≤
      (buildCellList (some ["h2,h1"]) (some ["h1", "# note", "", "h3"])).indexOf "h2" :=
  ⟨by decide,
   (buildCellList_nodup_firstOccurrence_order (some ["h2,h1"])
       (some ["h1", "# note", "", "h3"])).2.2.2 "h3" "h2"
     (by decide) (by decide) (by decide)⟩

/-- Claim C10: an inline entry with a trailing comma contributes the empty
string as a host (`buildCellList` strips but never filters inline pieces),
while blank lines of the host-list file are always filtered out. -/
theorem buildCellList_keeps_blank_inline_entries :
    buildCellList (some ["h1,"]) none = ["h1", ""] ∧
    (∀ lines : List String,
      ((parseGroupFile lines).all fun c => c.length != 0) = true) := by
  refine ⟨by decide, fun lines => ?_⟩
  rw [List.all_eq_true]
  intro c hc
  rcases List.mem_filter.1 hc with ⟨-, hkeep⟩
  simp only [Bool.and_eq_true] at hkeep
  exact hkeep.1

theorem buildCellList_keeps_blank_inline_entries_witness :
    ((parseGroupFile ["", "  ", "# x", "h9"]).all fun c => c.length != 0) = true :=
  buildCellList_keeps_blank_inline_entries.2 ["", "  ", "# x", "h9"]

/-- The five stages of the per-host pipeline in `WorkThread.run`
(dcli.py lines 518-687). -/
inductive Stage
  | keyExchange
  | makeDestDir
  | copy
  | runCmd
  | keyDrop
  deriving DecidableEq

/-- The request flags that decide which stages `WorkThread.run` attempts:
`hasKey` is `SSHKEY` being nonempty (guards at lines 569 and 666),
`pushKey` the merged push-key flag (line 484), `destDir` a destination
ending in a path separator (line 629), `hasFiles` a nonempty copy list
(line 641), `hasCommand` a command string (line 656), and `dropKey` the
`--unkey` flag (line 666). -/
structure RunRequest where
  hasKey : Bool
  pushKey : Bool
  destDir : Bool
  hasFiles : Bool
  hasCommand : Bool
  dropKey : Bool

/-- The first four stages of `WorkThread.run` (lines 569-664): key exchange
runs when requested; every later stage additionally requires the running
`childStatus` to still be zero (`if not childStatus and ...`).  Returns the
running status and the list of stages attempted, in order. -/
def pipelinePrefix (r : RunRequest) (result : Stage → Int) : Int × List Stage :=
  let s0 : Int × List Stage := (0, [])
  let s1 := if r.hasKey && r.pushKey then
      (result Stage.keyExchange, s0.2 ++ [Stage.keyExchange]) else s0
  let s2 := if s1.1 == 0 && r.destDir then
      (result Stage.makeDestDir, s1.2 ++ [Stage.makeDestDir]) else s1
  let s3 := if s2.1 == 0 && r.hasFiles then
      (result Stage.copy, s2.2 ++ [Stage.copy]) else s2
  let s4 := if s3.1 == 0 && r.hasCommand then
      (result Stage.runCmd, s3.2 ++ [Stage.runCmd]) else s3
  s4

/-- The whole pipeline of `WorkThread.run`: after the first four stages the
key-drop stage runs under the guard of line 666,
`if not childStatus and SSHKEY and dropKey`. -/
def runPipeline (r : RunRequest) (result : Stage → Int) : Int × List Stage :=
  let s := pipelinePrefix r result
  if s.1 == 0 && r.hasKey && r.dropKey then
    (result Stage.keyDrop, s.2 ++ [Stage.keyDrop]) else s

theorem keyDrop_not_mem_pipelinePrefix (r : RunRequest) (result : Stage → Int) :
    Stage.keyDrop ∉ (pipelinePrefix r result).2 := by
  simp only [pipelinePrefix]
  split <;> split <;> split <;> split <;> simp

theorem runPipeline_no_drop (r : RunRequest) (result : Stage → Int) :
    runPipeline {r with dropKey := false} result = pipelinePrefix r result := by
  cases r
  simp [runPipeline, pipelinePrefix]

/-- Claim C1 counterexample: with key material configured, a key push and a
key drop both requested, and the key-exchange stage failing with status 1,
the key-drop stage is never attempted. -/
theorem keyDrop_skipped_after_failure :
    Stage.keyDrop ∉
      (runPipeline ⟨true, true, false, false, false, true⟩
        (fun s => if s == Stage.keyExchange then 1 else 0)).2 := by decide

/-- Claim C1 (amended): the key-drop stage is attempted exactly when key
material is configured, key removal is requested, and every earlier
attempted stage returned status zero; like every other stage it is skipped
once the pipeline has short-circuited on a nonzero status. -/
theorem runPipeline_keyDrop_iff (r : RunRequest) (result : Stage → Int) :
    Stage.keyDrop ∈ (runPipeline r result).2 ↔
      r.hasKey = true ∧ r.dropKey = true ∧
        (runPipeline {r with dropKey := false} result).1 = 0 := by
  rw [runPipeline_no_drop, runPipeline]
  by_cases h : ((pipelinePrefix r result).1 == 0 && r.hasKey && r.dropKey) = true
  · rw [if_pos h]
    simp only [Bool.and_eq_true, beq_iff_eq] at h
    simp only [List.mem_append, List.mem_singleton]
    exact iff_of_true (by simp) ⟨h.1.2, h.2, h.1.1⟩
  · rw [if_neg h]
    refine iff_of_false (keyDrop_not_mem_pipelinePrefix r result) ?_
    rintro ⟨hk, hd, hs⟩
    exact h (by simp [hk, hd, hs])

theorem runPipeline_keyDrop_iff_witness :
    Stage.keyDrop ∈
      (runPipeline ⟨true, false, false, false, false, true⟩ (fun _ => 0)).2 :=
  (runPipeline_keyDrop_iff ⟨true, false, false, false, false, true⟩ (fun _ => 0)).2
    ⟨rfl, rfl, by decide⟩

/-- The option flags feeding the derived values at the top of
`copyAndExecute` (dcli.py lines 484-499): `serializeOps` is `--serial`,
`pushKey` is `-k`, `konepw` is `--key-with-one-password`. -/
structure CopyExecFlags where
  serializeOps : Bool
  pushKey : Bool
  konepw : Bool

/-- Line 484: `pushKey = options.pushKey or options.konepw`. -/
def derivedPushKey (o : CopyExecFlags) : Bool := o.pushKey || o.konepw

/-- Line 497: `serialize = options.serializeOps or options.pushKey` — note
it reads the original `-k` flag, not the merged push-key value. -/
def derivedSerialize (o : CopyExecFlags) : Bool := o.serializeOps || o.pushKey

/-- Claim C3 counterexample: with only `--key-with-one-password` set, a key
push is requested but the derived serialize flag stays false, so the hosts
are not run one at a time. -/
theorem konepw_does_not_serialize :
    derivedPushKey ⟨false, false, true⟩ = true ∧
    derivedSerialize ⟨false, false, true⟩ = false := by decide

/-- Claim C3 (amended): the derived serialize flag is set exactly for an
explicit `--serial` or the interactive `-k` key push; a
`--key-with-one-password` push alone leaves execution parallel. -/
theorem derivedSerialize_iff (o : CopyExecFlags) :
    derivedSerialize o = true ↔ o.serializeOps = true ∨ o.pushKey = true := by
  cases o
  simp [derivedSerialize]

theorem derivedSerialize_iff_witness :
    derivedSerialize ⟨false, true, false⟩ = true :=
  (derivedSerialize_iff ⟨false, true, false⟩).2 (Or.inr rfl)

/-- `update_max_threads` (dcli.py lines 1418-1458): `some n` when
`options.maxThds` is auto-set to `n`, `none` when auto-sizing is skipped
(explicit `--batchsize`, `--serial`, unknown fd limit, or a computed value
below 1).  `fdLimit` is the parsed `ulimit -n` value; Python `//` is floor
division, modelled by `Int.fdiv`. -/
def update_max_threads (maxThds : Int) (serializeOps : Bool) (fdLimit : Option Int) :
    Option Int :=
  if maxThds != 0 || serializeOps then none
  else
    match fdLimit with
    | none => none
    | some f =>
      let max_threads := (f - 10).fdiv 7
      if max_threads < 1 then none else some max_threads

/-- Claim C4 counterexample: at file-descriptor limit 16 the claimed batch
size is `max 1 ((16 - 10) / 7) = 1`, but the code derives no batch size at
all — values below 1 are not clamped, they disable auto-sizing. -/
theorem update_max_threads_no_clamp :
    update_max_threads 0 false (some 16) = none ∧
    max 1 ((16 - 10 : Int).fdiv 7) = 1 := by decide

/-- Claim C4 (amended): when no explicit batch size and no serialize flag
are set and the fd limit F is known, the auto-derived batch size is
`(F − 10) / 7` (floor) when that is at least 1 and nothing otherwise; an
explicit batch size or the serialize flag skips auto-sizing entirely. -/
theorem update_max_threads_spec (m : Int) (s : Bool) (f : Int) :
    (update_max_threads 0 false (some f) =
      if (f - 10).fdiv 7 < 1 then none else some ((f - 10).fdiv 7)) ∧
    (m ≠ 0 ∨ s = true → update_max_threads m s (some f) = none) ∧
    update_max_threads m s none = none := by
  refine ⟨by simp [update_max_threads], ?_, ?_⟩
  · rintro (hm | hs)
    · have hm' : (m != 0) = true := by simpa using hm
      simp [update_max_threads, hm']
    · simp [update_max_threads, hs]
  · cases hms : (m != 0 || s) <;> simp [update_max_threads, hms]

theorem update_max_threads_spec_witness :
    update_max_threads 5 false (some 100) = none :=
  (update_max_threads_spec 5 false 100).2.1 (Or.inl (by decide))

/-- Outcome of the local wait on the spawned subprocess in
`execute_ssh_command` (dcli.py lines 836-843): either `communicate`
returned the decoded stdout and the exit status, or `TimeoutExpired` was
raised and the handler ran `sys.exit(1)`, ending the worker thread. -/
inductive WaitOutcome
  | completed (rc : Int) (stdout : List String)
  | threadExit
  deriving DecidableEq

/-- With `--timeout` set, `child.communicate(timeout=options.timeout+2)`
raises `TimeoutExpired` when the child needs longer than the timeout plus
the fixed 2-second grace period; the handler executes `sys.exit(1)`, so the
worker thread ends there.  Without `--timeout` the wait is unbounded.
Durations are rationals (the option is a Python float). -/
def waitOnChild (timeout : Option ℚ) (childDuration : ℚ) (rc : Int)
    (stdout : List String) : WaitOutcome :=
  match timeout with
  | some t =>
    if childDuration > t + 2 then WaitOutcome.threadExit
    else WaitOutcome.completed rc stdout
  | none => WaitOutcome.completed rc stdout

/-- What `WorkThread.run` records into the shared `status`/`output` maps
for its cell (lines 682-685): they are written only when the thread reaches
the end of `run`; the `SystemExit` escaping from the grace-period path ends
the thread before that, so nothing is recorded for the cell. -/
def threadRecord : WaitOutcome → Option (Int × List String)
  | WaitOutcome.completed rc out => some (rc, out)
  | WaitOutcome.threadExit => none

/-- Status-map entry of one cell after a coordinator pass, as a function of
its wait outcome.  The pass itself always completes: the timed join loop of
`run_workThread` returns as soon as the worker thread is dead, whether or
not the thread recorded a result. -/
def passStatus (timeout : Option ℚ) (childDuration : ℚ) (rc : Int)
    (stdout : List String) : Option (Int × List String) :=
  threadRecord (waitOnChild timeout childDuration rc stdout)

/-- Claim C5 counterexample: timeout 3 and a child needing 10 seconds — the
local wait stops, but no failing result is recorded for the host; the
status map simply has no entry for it. -/
theorem timeout_host_not_marked_failed :
    ¬ ∃ rc out, passStatus (some 3) 10 0 [] = some (rc, out) ∧ rc ≠ 0 := by
  rintro ⟨rc, out, h, -⟩
  have hn : passStatus (some 3) 10 0 [] = none := by
    norm_num [passStatus, waitOnChild, threadRecord]
  rw [hn] at h
  exact Option.noConfusion h

/-- Claim C5 (amended): when the child outlives the configured timeout plus
the 2-second grace period the local wait does stop (the thread exits via
`sys.exit(1)` instead of blocking), but the host is not marked failed — it
is simply absent from the recorded status map for that pass. -/
theorem waitOnChild_grace (t d : ℚ) (rc : Int) (out : List String)
    (h : d > t + 2) :
    waitOnChild (some t) d rc out = WaitOutcome.threadExit ∧
    passStatus (some t) d rc out = none := by
  constructor <;> simp [waitOnChild, passStatus, threadRecord, h]

theorem waitOnChild_grace_witness :
    waitOnChild (some 3) 10 0 [] = WaitOutcome.threadExit ∧
    passStatus (some 3) 10 0 [] = none :=
  waitOnChild_grace 3 10 0 [] (by norm_num)

/-- `WorkThread.readNLines` (dcli.py lines 995-1041) as a function of the
decoded stdout lines: `i` counts the lines of the current chunk.  When the
counter passes `maxLines` the accumulated chunk is flushed to the reporter
and reset; in chunked mode reading continues, otherwise reading stops with
the truncation flag set.  Returns the not-yet-displayed lines, the
truncation flag, and the number of input lines consumed. -/
def readNLinesGo (maxLines : Int) (displayChunks : Bool) :
    List String → Nat → List String → List String × Bool × Nat
  | [], _, buf => (buf, false, 0)
  | l :: rest, i, buf =>
    if ((i : Int) + 1) > maxLines then
      if displayChunks then
        let r := readNLinesGo maxLines displayChunks rest 0 []
        (r.1, r.2.1, r.2.2 + 1)
      else ([], true, 1)
    else
      let r := readNLinesGo maxLines displayChunks rest (i + 1) (buf ++ [l])
      (r.1, r.2.1, r.2.2 + 1)

/-- `readNLines` proper: chunked display exactly when serialized or when
the pass has a single host (line 1008). -/
def readNLines (maxLines : Int) (serialize : Bool) (numCells : Nat)
    (lines : List String) : List String × Bool × Nat :=
  readNLinesGo maxLines (serialize || numCells == 1) lines 0 []

/-- End of `runCommand` after the wait: when `output_truncated` was set the
child is signalled while still alive (SIGTERM, then SIGKILL after polling,
lines 923-935) and the final status is forced to 1 (lines 950-951).
Returns the final status and whether the child was killed. -/
def finalizeAfterRead (status : Int) (truncated : Bool) (childAlive : Bool) :
    Int × Bool :=
  (if truncated then 1 else status, truncated && childAlive)

theorem readNLinesGo_truncates (maxLines : Int) (lines : List String) :
    ∀ (i : Nat) (buf : List String), (i : Int) ≤ maxLines →
    maxLines < (i : Int) + lines.length →
    ∃ n, readNLinesGo maxLines false lines i buf = ([], true, n) ∧
      n ≤ lines.length ∧ (n : Int) + i ≤ maxLines + 1 := by
  induction lines with
  | nil =>
    intro i buf hi hlen
    simp only [List.length_nil, Int.ofNat_zero, add_zero] at hlen
    omega
  | cons l rest ih =>
    intro i buf hi hlen
    by_cases hc : ((i : Int) + 1) > maxLines
    · refine ⟨1, ?_, by simp, by omega⟩
      simp [readNLinesGo, hc]
    · have hle : ((i + 1 : Nat) : Int) ≤ maxLines := by
        push_neg at hc
        push_cast
        omega
      have hrest : maxLines < ((i + 1 : Nat) : Int) + rest.length := by
        simp only [List.length_cons] at hlen
        push_cast at hlen ⊢
        omega
      obtain ⟨n, heq, hn1, hn2⟩ := ih (i + 1) (buf ++ [l]) hle hrest
      refine ⟨n + 1, ?_, by simpa using Nat.succ_le_succ hn1, ?_⟩
      · simp [readNLinesGo, hc, heq]
      · push_cast at hn2 ⊢
        omega

/-- Claim C6: in non-serialized mode with more than one host in the pass, a
host producing more than `maxLines` output lines has its reading stopped
within `maxLines + 1` lines, its result marked truncated with the buffer
dropped, its final status forced to the failing value 1, and its subprocess
killed exactly when still alive. -/
theorem readNLines_truncates_and_fails (maxLines : Int) (numCells : Nat)
    (lines : List String) (status : Int) (alive : Bool)
    (hml : 0 ≤ maxLines) (hcells : 1 < numCells)
    (hlen : maxLines < (lines.length : Int)) :
    ∃ n, readNLines maxLines false numCells lines = ([], true, n) ∧
      n ≤ lines.length ∧ (n : Int) ≤ maxLines + 1 ∧
      finalizeAfterRead status
        (readNLines maxLines false numCells lines).2.1 alive = (1, alive) := by
  have hnc : (numCells == 1) = false := by
    simp only [beq_eq_false_iff_ne, ne_eq]
    omega
  obtain ⟨n, heq, h1, h2⟩ :=
    readNLinesGo_truncates maxLines lines 0 [] (by exact_mod_cast hml)
      (by simpa using hlen)
  refine ⟨n, ?_, h1, by simpa using h2, ?_⟩
  · rw [readNLines, Bool.false_or, hnc]
    exact heq
  · rw [readNLines, Bool.false_or, hnc, heq]
    simp [finalizeAfterRead]

theorem readNLines_truncates_and_fails_witness :
    ∃ n, readNLines 1 false 2 ["a", "b", "c"] = ([], true, n) ∧
      n ≤ (["a", "b", "c"] : List String).length ∧ (n : Int) ≤ 1 + 1 ∧
      finalizeAfterRead 0 (readNLines 1 false 2 ["a", "b", "c"]).2.1 true =
        (1, true) :=
  readNLines_truncates_and_fails 1 2 ["a", "b", "c"] 0 true
    (by norm_num) (by norm_num) (by norm_num)

/-- One batch of the main loop (dcli.py lines 1752-1768): the per-host exit
statuses recorded by the batch (process exit statuses, hence naturals) and
whether the batch reported unreachable hosts (`badCells` nonempty). -/
structure BatchOutcome where
  statuses : List Nat
  hasBadCells : Bool

/-- Lines 1759-1768: a nonempty `badCells` sets `returnValue` to 1, then
`returnValue = max(list(statusMap.values()) + [returnValue])`. -/
def batchReturnValue (b : BatchOutcome) (rv : Nat) : Nat :=
  b.statuses.foldl max (if b.hasBadCells then 1 else rv)

/-- `returnValue` accumulated over all batches, starting from 0
(line 1628). -/
def runBatches (batches : List BatchOutcome) : Nat :=
  batches.foldl (fun rv b => batchReturnValue b rv) 0

/-- `return returnValue and 1` (line 1798): Python `and` yields 0 exactly
when `returnValue` is 0, and 1 otherwise. -/
def finalReturn (rv : Nat) : Nat := if rv = 0 then 0 else 1

/-- The observable outcomes of `main`: a `UsageError` (line 1779) or an
environment `Error`/`IOError` (lines 1785-1791) return 2 without or
instead of contacting hosts; otherwise the batches ran and the accumulated
return value is collapsed to 0 or 1. -/
inductive MainOutcome
  | usageError
  | envError
  | ran (batches : List BatchOutcome)

def mainExit : MainOutcome → Nat
  | MainOutcome.usageError => 2
  | MainOutcome.envError => 2
  | MainOutcome.ran bs => finalReturn (runBatches bs)

theorem foldl_max_eq_zero (l : List Nat) (r : Nat) :
    l.foldl max r = 0 ↔ r = 0 ∧ ∀ s ∈ l, s = 0 := by
  induction l generalizing r with
  | nil => simp
  | cons a t ih =>
    simp only [List.foldl_cons, ih, List.mem_cons]
    constructor
    · rintro ⟨hm, hall⟩
      have hra : r = 0 ∧ a = 0 := Nat.max_eq_zero_iff.1 hm
      exact ⟨hra.1, fun s hs => hs.elim (fun e => e ▸ hra.2) (hall s)⟩
    · rintro ⟨hr, hall⟩
      exact ⟨Nat.max_eq_zero_iff.2 ⟨hr, hall a (Or.inl rfl)⟩,
        fun s hs => hall s (Or.inr hs)⟩

theorem batchReturnValue_eq_zero (b : BatchOutcome) (r : Nat) :
    batchReturnValue b r = 0 ↔
      r = 0 ∧ (∀ s ∈ b.statuses, s = 0) ∧ b.hasBadCells = false := by
  rw [batchReturnValue, foldl_max_eq_zero]
  cases hbc : b.hasBadCells <;> simp [hbc]

theorem runBatches_eq_zero (bs : List BatchOutcome) :
    runBatches bs = 0 ↔
      ∀ b ∈ bs, (∀ s ∈ b.statuses, s = 0) ∧ b.hasBadCells = false := by
  have gen : ∀ (l : List BatchOutcome) (r : Nat),
      l.foldl (fun rv b => batchReturnValue b rv) r = 0 ↔
        r = 0 ∧ ∀ b ∈ l, (∀ s ∈ b.statuses, s = 0) ∧ b.hasBadCells = false := by
    intro l
    induction l with
    | nil => intro r; simp
    | cons b t ih =>
      intro r
      simp only [List.foldl_cons, ih, batchReturnValue_eq_zero, List.mem_cons]
      constructor
      · rintro ⟨⟨hr, hst, hbc⟩, hall⟩
        exact ⟨hr, fun b' hb' => hb'.elim (fun e => e ▸ ⟨hst, hbc⟩) (hall b')⟩
      · rintro ⟨hr, hall⟩
        exact ⟨⟨hr, (hall b (Or.inl rfl)).1, (hall b (Or.inl rfl)).2⟩,
          fun b' hb' => hall b' (Or.inr hb')⟩
  rw [runBatches, gen]
  simp

/-- Claim C7: the process exit code is 0 exactly when every recorded
per-host status is zero and no batch reported unreachable hosts; it is 1
exactly when some host status was nonzero or some host was unreachable; a
usage or configuration error that prevented execution exits with 2. -/
theorem mainExit_classification (bs : List BatchOutcome) :
    (mainExit (MainOutcome.ran bs) = 0 ↔
      ∀ b ∈ bs, (∀ s ∈ b.statuses, s = 0) ∧ b.hasBadCells = false) ∧
    (mainExit (MainOutcome.ran bs) = 1 ↔
      ∃ b ∈ bs, (∃ s ∈ b.statuses, s ≠ 0) ∨ b.hasBadCells = true) ∧
    mainExit MainOutcome.usageError = 2 ∧ mainExit MainOutcome.envError = 2 := by
  have h0 : mainExit (MainOutcome.ran bs) = 0 ↔ runBatches bs = 0 := by
    simp only [mainExit, finalReturn]
    by_cases hc : runBatches bs = 0 <;> simp [hc]
  have h1 : mainExit (MainOutcome.ran bs) = 1 ↔ ¬ runBatches bs = 0 := by
    simp only [mainExit, finalReturn]
    by_cases hc : runBatches bs = 0 <;> simp [hc]
  refine ⟨h0.trans (runBatches_eq_zero bs), ?_, rfl, rfl⟩
  rw [h1, runBatches_eq_zero]
  push_neg
  constructor
  · rintro ⟨b, hb, himp⟩
    by_cases hp : ∀ s ∈ b.statuses, s = 0
    · exact ⟨b, hb, Or.inr (by simpa using himp hp)⟩
    · push_neg at hp
      exact ⟨b, hb, Or.inl hp⟩
  · rintro ⟨b, hb, hcase⟩
    refine ⟨b, hb, ?_⟩
    rcases hcase with ⟨s, hs, hs0⟩ | hbad
    · intro hall
      exact absurd (hall s hs) hs0
    · intro _
      simp [hbad]

theorem mainExit_classification_witness :
    mainExit (MainOutcome.ran [⟨[0, 0], false⟩]) = 0 :=
  (mainExit_classification [⟨[0, 0], false⟩]).1.2 (by decide)

/-- Initial-segment test on character lists, used to model the Python `in`
operator of `retry_if_needed`. -/
def beginsWith : List Char → List Char → Bool
  | [], _ => true
  | _ :: _, [] => false
  | p :: ps, c :: cs => p == c && beginsWith ps cs

/-- `hasSubAux pat s`: `pat` occurs contiguously in `s`. -/
def hasSubAux (pat : List Char) : List Char → Bool
  | [] => pat.isEmpty
  | c :: rest => beginsWith pat (c :: rest) || hasSubAux pat rest

/-- Python `sub in s` on strings. -/
def pyContains (s sub : String) : Bool := hasSubAux sub.data s.data

/-- `retry_if_needed` (dcli.py lines 705-726): true only with
`--key-with-one-password` and only when some line of the captured stderr
banner or of the stdout contains an offending-key warning. -/
def retry_if_needed (konepw : Bool) (banner_or_err stdout : List String) : Bool :=
  if !konepw then false
  else (banner_or_err ++ stdout).any fun line =>
    pyContains line "Offending key" || pyContains line "Offending ECDSA key"

/-- What `runCommand` does with the cell after the wait (lines 909-920):
returncode 124 appends a timeout diagnostic; otherwise an offending-key
retry request queues the cell for the retry pass; otherwise returncode 255
records the cell in `badCells`; otherwise nothing happens. -/
inductive PostWait
  | timeoutNote
  | retryQueue
  | markBad
  | noAction
  deriving DecidableEq

def classifyAfterWait (konepw : Bool) (returncode : Int)
    (banner_or_err stdout : List String) : PostWait :=
  if returncode == 124 then PostWait.timeoutNote
  else if retry_if_needed konepw banner_or_err stdout then PostWait.retryQueue
  else if returncode == 255 then PostWait.markBad
  else PostWait.noAction

/-- Observable behaviour of one cell on one coordinator pass: the exit
status of its spawned subprocess and the captured stderr banner and stdout
lines. -/
structure CellRun where
  returncode : Int
  banner : List String
  stdout : List String

def classifyCell (konepw : Bool) (run : CellRun) : PostWait :=
  classifyAfterWait konepw run.returncode run.banner run.stdout

/-- The cells one pass of `run_workThread` adds to `badCells`. -/
def passBadCells (konepw : Bool) (cells : List String) (runOf : String → CellRun) :
    List String :=
  cells.filter fun c => classifyCell konepw (runOf c) == PostWait.markBad

/-- The cells one pass adds to `cells_need_retry`. -/
def passRetryCells (konepw : Bool) (cells : List String) (runOf : String → CellRun) :
    List String :=
  cells.filter fun c => classifyCell konepw (runOf c) == PostWait.retryQueue

/-- The unreachable set `copyAndExecute` returns over the main pass and the
single offending-key retry pass (lines 1189-1194): the retry subset is the
queued cells that `remove_offending_keys` found in the local known-hosts
file (`retryable`), re-run once with behaviour `runOf2`. -/
def copyAndExecuteBadCells (konepw : Bool) (cells : List String)
    (runOf1 : String → CellRun) (retryable : String → Bool)
    (runOf2 : String → CellRun) : List String :=
  passBadCells konepw cells runOf1 ++
    passBadCells konepw ((passRetryCells konepw cells runOf1).filter retryable)
      runOf2

/-- Claim C2 counterexample: a host whose ssh exits 255 on both the main
pass and the retry pass while printing an offending-key warning under
`--key-with-one-password` never enters `badCells`: the 255 exit is routed
to the retry queue instead of the unreachable set. -/
theorem exit255_host_missing_from_badCells :
    copyAndExecuteBadCells true ["h1"]
      (fun _ => ⟨255, ["Offending key in known_hosts"], []⟩)
      (fun _ => true)
      (fun _ => ⟨255, ["Offending key in known_hosts"], []⟩) = [] := by decide

/-- Claim C2 (amended): a host whose subprocess exits 255 on the main pass
is recorded in `badCells` unless the shared-password mode is active and an
offending-key warning was captured, in which case the host is queued for
the retry pass instead. -/
theorem exit255_in_badCells_unless_retry (konepw : Bool) (cells : List String)
    (runOf1 : String → CellRun) (retryable : String → Bool)
    (runOf2 : String → CellRun) (c : String) (hc : c ∈ cells)
    (h255 : (runOf1 c).returncode = 255)
    (hnr : retry_if_needed konepw (runOf1 c).banner (runOf1 c).stdout = false) :
    c ∈ copyAndExecuteBadCells konepw cells runOf1 retryable runOf2 := by
  have hcl : classifyCell konepw (runOf1 c) = PostWait.markBad := by
    unfold classifyCell classifyAfterWait
    rw [h255, hnr]
    decide
  refine List.mem_append.2 (Or.inl ?_)
  exact List.mem_filter.2 ⟨hc, by rw [hcl]; rfl⟩

theorem exit255_in_badCells_unless_retry_witness :
    "h1" ∈ copyAndExecuteBadCells false ["h1"] (fun _ => ⟨255, [], []⟩)
      (fun _ => false) (fun _ => ⟨0, [], []⟩) :=
  exit255_in_badCells_unless_retry false ["h1"] (fun _ => ⟨255, [], []⟩)
    (fun _ => false) (fun _ => ⟨0, [], []⟩) "h1" (by decide) rfl rfl

/-- The interactive `-k` branch of `runCommand` (dcli.py lines 733-768),
taken when a key push is requested without `--key-with-one-password` and
with no expect input lines: ssh runs against the terminal via
`subprocess.call`; `spawn` is `Except.ok rc` when the call returns and
`Except.error ()` when it raises.  Returns the (status, output lines) pair
and the updated `badCells`. -/
def interactiveKeyPush (spawn : Except Unit Int) (badCells : List String)
    (cell : String) : (Int × List String) × List String :=
  match spawn with
  | Except.ok st =>
    if st != 0 then
      ((st, []), if cell ∈ badCells then badCells else badCells ++ [cell])
    else ((st, []), badCells)
  | Except.error _ =>
    ((1, []), if cell ∈ badCells then badCells else badCells ++ [cell])

/-- Claim C9: in the interactive key-push path every nonzero ssh exit
status — not only 255 — records the host in `badCells`, and a local
exception while spawning records it too, with a returned status of 1. -/
theorem interactiveKeyPush_badCells (spawn : Except Unit Int)
    (badCells : List String) (cell : String) :
    (∀ st : Int, spawn = Except.ok st → st ≠ 0 →
      cell ∈ (interactiveKeyPush spawn badCells cell).2) ∧
    (spawn = Except.error () →
      (interactiveKeyPush spawn badCells cell).1.1 = 1 ∧
      cell ∈ (interactiveKeyPush spawn badCells cell).2) := by
  constructor
  · rintro st rfl hst
    have hb : (st != 0) = true := by simpa using hst
    simp only [interactiveKeyPush, hb, if_true]
    by_cases hm : cell ∈ badCells
    · simp [hm]
    · simp [hm]
  · rintro rfl
    refine ⟨rfl, ?_⟩
    by_cases hm : cell ∈ badCells
    · simp [interactiveKeyPush, hm]
    · simp [interactiveKeyPush, hm]

theorem interactiveKeyPush_badCells_witness :
    "h1" ∈ (interactiveKeyPush (Except.ok 17) [] "h1").2 :=
  (interactiveKeyPush_badCells (Except.ok 17) [] "h1").1 17 rfl (by decide)

end Dcli
